import Mathlib

/-!
Verification development for the SIFT feature detector / descriptor extractor
in `skimage/feature/sift.py`.

The numerical code operates on numpy float arrays; we embed it shallowly:
float arithmetic is modelled by exact arithmetic (`ℚ` for the combinatorial
pipeline stages, `ℝ` for the stages that involve `sqrt`, `log`, real powers
and `π`).  Arrays are modelled as functions or lists; fallible numpy
operations (`np.linalg.solve` raising `LinAlgError` on a singular batch) are
modelled with `Option`.
-/

set_option maxRecDepth 10000
set_option linter.unusedVariables false

namespace SIFT

/-! # Definitions

## Sub-pixel localization (`_hessian`, `_inrange`, `_find_localize_evaluate`)

A DoG octave is a 3-D array, embedded as a function `(Fin 3 → ℤ) → ℚ` from
integer (row, col, scale) positions to values.  All candidate positions the
code evaluates stay strictly inside the array (initial candidates come from
`peak_local_max` with border exclusion, and the move guards keep them
interior), so `np.gradient` is the central difference everywhere we read it.
-/

/-- Move position `p` by `d` along axis `i` (array index arithmetic). -/
def shiftp (p : Fin 3 → ℤ) (i : Fin 3) (d : ℤ) : Fin 3 → ℤ :=
  Function.update p i (p i + d)

/-- `np.gradient` of the octave at an interior position: central differences. -/
def grad (D : (Fin 3 → ℤ) → ℚ) (p : Fin 3 → ℤ) (i : Fin 3) : ℚ :=
  (D (shiftp p i 1) - D (shiftp p i (-1))) / 2

/-- `_hessian` (sift.py lines 192-222): second-order central differences,
diagonal `D(p+e_i) + D(p-e_i) - 2 D(p)`, off-diagonal
`¼ (D(p+e_i+e_j) - D(p-e_i+e_j) - D(p+e_i-e_j) + D(p-e_i-e_j))`;
the code writes both `h[i,j]` and `h[j,i]` from the same expression. -/
def hessian (D : (Fin 3 → ℤ) → ℚ) (p : Fin 3 → ℤ) : Fin 3 → Fin 3 → ℚ :=
  fun i j =>
    if i = j then D (shiftp p i 1) + D (shiftp p i (-1)) - 2 * D p
    else (1/4) * (D (shiftp (shiftp p i 1) j 1) - D (shiftp (shiftp p i (-1)) j 1)
                  - D (shiftp (shiftp p i 1) j (-1)) + D (shiftp (shiftp p i (-1)) j (-1)))

/-- Determinant of a 3×3 matrix (cofactor expansion along the first row). -/
def det3 (M : Fin 3 → Fin 3 → ℚ) : ℚ :=
  M 0 0 * (M 1 1 * M 2 2 - M 1 2 * M 2 1)
  - M 0 1 * (M 1 0 * M 2 2 - M 1 2 * M 2 0)
  + M 0 2 * (M 1 0 * M 2 1 - M 1 1 * M 2 0)

/-- Matrix with column `j` replaced by the vector `b` (for Cramer's rule). -/
def replaceCol (M : Fin 3 → Fin 3 → ℚ) (j : Fin 3) (b : Fin 3 → ℚ) :
    Fin 3 → Fin 3 → ℚ :=
  fun r c => if c = j then b r else M r c

def negMat (M : Fin 3 → Fin 3 → ℚ) : Fin 3 → Fin 3 → ℚ := fun r c => -(M r c)

/-- `np.linalg.solve(-H, J)` for one candidate, by Cramer's rule.
`np.linalg.solve` raises `LinAlgError` on a singular matrix; in the exact
model singularity is `det = 0` and the failure is `none`. -/
def solveNegHJ (D : (Fin 3 → ℤ) → ℚ) (p : Fin 3 → ℤ) : Option (Fin 3 → ℚ) :=
  if det3 (negMat (hessian D p)) = 0 then none
  else some fun i =>
    det3 (replaceCol (negMat (hessian D p)) i (fun j => grad D p j))
      / det3 (negMat (hessian D p))

/-- `_inrange` (line 190): checks only the two spatial axes, strictly inside. -/
def inrange (dim : Fin 3 → ℤ) (p : Fin 3 → ℤ) : Prop :=
  0 < p 0 ∧ p 0 < dim 0 - 1 ∧ 0 < p 1 ∧ p 1 < dim 1 - 1

instance (dim p) : Decidable (inrange dim p) := by unfold inrange; infer_instance

/-- A component is mis-positioned upward: `off > 0.5` and the increment stays
inside the array (lines 256-257). -/
def wrongPos (dim : Fin 3 → ℤ) (p : Fin 3 → ℤ) (off : Fin 3 → ℚ) (i : Fin 3) : Prop :=
  1/2 < off i ∧ p i + 1 < dim i - 1

/-- `off < -0.5` and the decrement stays above zero (line 258). -/
def wrongNeg (dim : Fin 3 → ℤ) (p : Fin 3 → ℤ) (off : Fin 3 → ℚ) (i : Fin 3) : Prop :=
  off i < -(1/2) ∧ 0 < p i - 1

instance (dim p off i) : Decidable (wrongPos dim p off i) := by
  unfold wrongPos; infer_instance

instance (dim p off i) : Decidable (wrongNeg dim p off i) := by
  unfold wrongNeg; infer_instance

/-- One vectorized move `keys[wrong_position_pos] += 1`,
`keys[wrong_position_neg] -= 1` (lines 261-262), componentwise. -/
def moveKey (dim : Fin 3 → ℤ) (p : Fin 3 → ℤ) (off : Fin 3 → ℚ) : Fin 3 → ℤ :=
  fun i =>
    if wrongPos dim p off i then p i + 1
    else if wrongNeg dim p off i then p i - 1
    else p i

/-- Solve the whole batch; any singular Hessian aborts the batch, because
`np.linalg.solve` raises `LinAlgError` for the stacked system. -/
def solveBatch (D : (Fin 3 → ℤ) → ℚ) : List (Fin 3 → ℤ) →
    Option (List ((Fin 3 → ℤ) × (Fin 3 → ℚ)))
  | [] => some []
  | k :: ks =>
    match solveNegHJ D k, solveBatch D ks with
    | some o, some rest => some ((k, o) :: rest)
    | _, _ => none

/-- The `for i in range(5)` refinement loop (lines 247-262).  `fuel = 4 - i`:
the loop breaks when no candidate is mis-positioned or on the fifth
iteration, after the offsets of the current positions have been computed.
If a candidate leaves `_inrange`, the masked Jacobian no longer matches the
Hessian stack and the batched solve fails on mismatched shapes, which also
aborts the call (`none`). -/
def refineIter (D : (Fin 3 → ℤ) → ℚ) (dim : Fin 3 → ℤ) :
    ℕ → List (Fin 3 → ℤ) → Option (List ((Fin 3 → ℤ) × (Fin 3 → ℚ)))
  | 0, keys =>
    if ∀ k ∈ keys, inrange dim k then solveBatch D keys else none
  | fuel + 1, keys =>
    if ∀ k ∈ keys, inrange dim k then
      match solveBatch D keys with
      | none => none
      | some kos =>
        if ∃ ko ∈ kos, ∃ i, wrongPos dim ko.1 ko.2 i ∨ wrongNeg dim ko.1 ko.2 i then
          refineIter D dim fuel (kos.map fun ko => moveKey dim ko.1 ko.2)
        else some kos
    else none

/-- `finished = np.all(np.abs(off) < 0.5)` (line 263): strict inequality. -/
def finishedOff (off : Fin 3 → ℚ) : Prop := ∀ i, |off i| < 1/2

instance (off) : Decidable (finishedOff off) := by unfold finishedOff; infer_instance

/-- Localization: run the refinement loop, then keep only candidates whose
terminal offset is strictly inside the half-pixel box (lines 247-268). -/
def localizeCandidates (D : (Fin 3 → ℤ) → ℚ) (dim : Fin 3 → ℤ)
    (keys : List (Fin 3 → ℤ)) : Option (List ((Fin 3 → ℤ) × (Fin 3 → ℚ))) :=
  (refineIter D dim 4 keys).map fun l => l.filter fun ko => decide (finishedOff ko.2)

def dot3 (a b : Fin 3 → ℚ) : ℚ := a 0 * b 0 + a 1 * b 1 + a 2 * b 2

/-- The interpolated DoG response `w = vals + 0.5 * sum(J * off)` (line 269). -/
def interpW (D : (Fin 3 → ℤ) → ℚ) (ko : (Fin 3 → ℤ) × (Fin 3 → ℚ)) : ℚ :=
  D ko.1 + dot3 (fun i => grad D ko.1 i) ko.2 / 2

/-- Trace of the spatial 2×2 sub-Hessian `H[:2,:2]` (line 270). -/
def tr2 (D : (Fin 3 → ℤ) → ℚ) (p : Fin 3 → ℤ) : ℚ :=
  hessian D p 0 0 + hessian D p 1 1

/-- Determinant of the spatial 2×2 sub-Hessian. -/
def det2 (D : (Fin 3 → ℤ) → ℚ) (p : Fin 3 → ℤ) : ℚ :=
  hessian D p 0 0 * hessian D p 1 1 - hessian D p 0 1 * hessian D p 1 0

/-- Contrast and edge filters (lines 273-285): keep a localized candidate
when `|w| > contrast_threshold` and `|trace² / det| <= edge_threshold`.
The code computes the trace and determinant via the eigenvalues of the
spatial 2×2 sub-Hessian, whose sum and product for a symmetric matrix are
exactly `tr2` and `det2` (proved over `ℝ` below, `eigTrace_eq`/`eigDet_eq`);
a zero determinant makes the float edge response `inf`/`nan`, which fails
the `<=` comparison, modelled by the nonzero-determinant conjunct. -/
def contrastEdgeKeep (D : (Fin 3 → ℤ) → ℚ) (cthr ethr : ℚ)
    (ko : (Fin 3 → ℤ) × (Fin 3 → ℚ)) : Bool :=
  decide (cthr < |interpW D ko|)
  && decide (det2 D ko.1 ≠ 0)
  && decide (|tr2 D ko.1 ^ 2 / det2 D ko.1| ≤ ethr)

/-- `_find_localize_evaluate` for one octave, through the contrast and edge
filters (lines 236-285); the later border computation (lines 286-291)
involves real powers and is not needed for the claims below. -/
def evaluateCandidates (D : (Fin 3 → ℤ) → ℚ) (dim : Fin 3 → ℤ)
    (cthr ethr : ℚ) (keys : List (Fin 3 → ℤ)) :
    Option (List ((Fin 3 → ℤ) × (Fin 3 → ℚ))) :=
  (localizeCandidates D dim keys).map fun l => l.filter (contrastEdgeKeep D cthr ethr)

/-- Octave DoG data for the boundary-offset run: the candidate at (1,1,1)
has Hessian `-I` and gradient `(1/2, 0, 0)`, so the solved offset is exactly
`(1/2, 0, 0)`. -/
def D4 : (Fin 3 → ℤ) → ℚ := fun p =>
  if p 0 = 1 ∧ p 1 = 1 ∧ p 2 = 1 then 1
  else if p 0 = 2 ∧ p 1 = 1 ∧ p 2 = 1 then 1
  else if p 0 = 1 ∧ p 1 = 0 ∧ p 2 = 1 then 1/2
  else if p 0 = 1 ∧ p 1 = 2 ∧ p 2 = 1 then 1/2
  else if p 0 = 1 ∧ p 1 = 1 ∧ p 2 = 0 then 1/2
  else if p 0 = 1 ∧ p 1 = 1 ∧ p 2 = 2 then 1/2
  else 0

/-- An isolated DoG bump: Hessian `-2I`, zero gradient, offset `0`. -/
def D4b : (Fin 3 → ℤ) → ℚ := fun p =>
  if p 0 = 1 ∧ p 1 = 1 ∧ p 2 = 1 then 1 else 0

def dim3 : Fin 3 → ℤ := ![3, 3, 3]

def offHalf : Fin 3 → ℚ := ![1/2, 0, 0]

/-- Octave data for the singular-Hessian batch (claim C6): the candidate at
`(1,1,1)` sits on an isolated bump, the one at `(1,1,3)` in a constant
region where the Hessian is the zero matrix. -/
def D6 : (Fin 3 → ℤ) → ℚ := fun p =>
  if p 0 = 1 ∧ p 1 = 1 ∧ p 2 = 1 then 1 else 0

def dim35 : Fin 3 → ℤ := ![3, 3, 5]

/-! ## Orientation assignment: output-array aggregation (`_compute_orientation`)

`_compute_orientation` walks the keypoints in octave order (which is also
their storage order, since `_find_localize_evaluate` emits the octaves in
ascending order), decides for each whether its patch is valid, and collects
the accepted peak angles.  We abstract one keypoint as its attribute record
together with the outcome of the histogram analysis: the validity flag of
line 333 and the list of accepted peak angles (in bin order) of line 359.
The statements proved below concern only how lines 362-381 assemble the
output arrays from these data. -/

structure OriKp where
  pos : ℚ × ℚ
  scale : ℤ
  sigma : ℚ
  octave : ℤ
  valid : Bool
  angles : List ℚ
  deriving DecidableEq, Inhabited

/-- `keypoint_indices` (lines 308, 371): while walking the keypoints with
counter `key_count = i`, every accepted peak beyond the first of a valid
keypoint appends the keypoint's index. -/
def keypoint_indices : List OriKp → ℕ → List ℕ
  | [], _ => []
  | k :: ks, i =>
    (if k.valid then k.angles.tail.map (fun _ => i) else []) ++ keypoint_indices ks (i + 1)

/-- `keypoint_angles` (lines 309, 372): the extra peak angles, in walk order. -/
def keypoint_angles (ks : List OriKp) : List ℚ :=
  ks.flatMap fun k => if k.valid then k.angles.tail else []

/-- `keypoint_octave` (lines 310, 373): the octave recorded for each clone is
the loop octave `o`, which equals the keypoint's own octave since the
keypoints are walked grouped by octave. -/
def keypoint_octave (ks : List OriKp) : List ℤ :=
  ks.flatMap fun k => if k.valid then k.angles.tail.map (fun _ => k.octave) else []

def validKps (ks : List OriKp) : List OriKp := ks.filter (·.valid)

/-- `self.positions = np.vstack((positions_oct[keypoints_valid],
positions_oct[keypoint_indices]))` (line 377). -/
def self_positions (ks : List OriKp) : List (ℚ × ℚ) :=
  (validKps ks).map (·.pos) ++ (keypoint_indices ks 0).map fun i => (ks.getD i default).pos

/-- `self.scales` (line 378). -/
def self_scales (ks : List OriKp) : List ℤ :=
  (validKps ks).map (·.scale) ++ (keypoint_indices ks 0).map fun i => (ks.getD i default).scale

/-- `self.sigmas` (line 379). -/
def self_sigmas (ks : List OriKp) : List ℚ :=
  (validKps ks).map (·.sigma) ++ (keypoint_indices ks 0).map fun i => (ks.getD i default).sigma

/-- `self.orientations = np.hstack((orientations[keypoints_valid],
keypoint_angles))` (line 380): the `orientations` array starts as zeros
(line 312) and the first accepted peak of each valid keypoint overwrites its
slot (lines 368-369), so the selected entries are `angles.headD 0`. -/
def self_orientations (ks : List OriKp) : List ℚ :=
  (validKps ks).map (fun k => k.angles.headD 0) ++ keypoint_angles ks

/-- `self.octaves` (line 381). -/
def self_octaves (ks : List OriKp) : List ℤ :=
  (validKps ks).map (·.octave) ++ keypoint_octave ks

/-- `self.keypoints = np.vstack([k.round().astype(np.int) for k in positions])`
(lines 501, 545): built from the **local** `positions` array returned by
`_find_localize_evaluate`, i.e. from all localized keypoints, before the
invalid ones are dropped and the clones appended.  (numpy rounds
half-to-even while `round` rounds half-up; this does not matter for any
statement below.) -/
def detect_keypoints (ks : List OriKp) : List (ℤ × ℤ) :=
  ks.map fun k => (round k.pos.1, round k.pos.2)

/-- `self.descriptors = np.empty((nKey, n_hist² * n_ori))` with
`nKey = len(self.scales)` (lines 396-397). -/
def descriptors_rows (ks : List OriKp) : ℕ := (self_scales ks).length

/-- A localized keypoint whose orientation patch is degenerate: it is marked
invalid (line 375) and dropped from all `self.*` arrays, but still
contributes a row to `self.keypoints`. -/
def kInvalid : OriKp := ⟨(6, 7), 1, 2, 0, false, []⟩

/-! ## Orientation-histogram smoothing (lines 352-356)

The code extends the `n_bins = 36` histogram with three wrapped entries at
each end (`np.hstack((hist[-3:], hist, hist[:3]))`), applies
`np.convolve(hist, np.ones(3)/3, mode='same')` six times to the padded
array of length 42 (zero-padding outside it), and crops three entries from
each end.  A histogram is a function `ℤ → ℚ` read on `[0, 36)`. -/

/-- The padded array of length 42 (line 353). -/
def padded (h : ℤ → ℚ) : ℤ → ℚ := fun i =>
  if 0 ≤ i ∧ i < 3 then h (i + 33)
  else if 3 ≤ i ∧ i < 39 then h (i - 3)
  else if 39 ≤ i ∧ i < 42 then h (i - 39)
  else 0

/-- `np.convolve(·, np.ones(3)/3, mode='same')` on an array of length `m`:
out-of-range reads are zero (the input vanishes outside `[0, m)`). -/
def convSame (m : ℤ) (f : ℤ → ℚ) : ℤ → ℚ := fun i =>
  if 0 ≤ i ∧ i < m then (f (i - 1) + f i + f (i + 1)) / 3 else 0

/-- The code's smoothed histogram at bin `j`: six same-mode convolutions of
the padded array, cropped (`hist = hist[3:-3]`, line 356). -/
def codeSmooth (h : ℤ → ℚ) (j : ℤ) : ℚ := (convSame 42)^[6] (padded h) (j + 3)

/-- One exact circular convolution of the 36-bin histogram with `[1,1,1]/3`. -/
def circConv (h : ℤ → ℚ) : ℤ → ℚ := fun i =>
  (h ((i - 1) % 36) + h (i % 36) + h ((i + 1) % 36)) / 3

/-- Six exact circular convolutions (what the spec asserts the code does). -/
def circSmooth (h : ℤ → ℚ) (j : ℤ) : ℚ := (circConv)^[6] h j

/-- The histogram that separates the two smoothings: a single unit mass in
bin 30, which is 6 bins away from bin 0 around the circle but more than 3+6
positions away inside the padded array. -/
def hC8 : ℤ → ℚ := fun i => if i = 30 then 1 else 0

/-! ## Edge filter via eigenvalues (lines 278-282)

The code takes `np.linalg.eig` of each contrast-surviving spatial 2×2
sub-Hessian `[[a,b],[b,c]]` and forms `trace = eig₀ + eig₁`,
`determinant = eig₀ * eig₁`, `edge_respone = trace²/determinant`, keeping
the candidate when `abs(edge_respone) <= (c_edge+1)²/c_edge`.  For the
symmetric matrix the eigenvalues are `((a+c) ± √((a-c)² + 4b²))/2`. -/

noncomputable def sqrtDisc (a b c : ℝ) : ℝ := Real.sqrt ((a - c)^2 + 4*b^2)

noncomputable def eigLo (a b c : ℝ) : ℝ := ((a + c) - sqrtDisc a b c) / 2

noncomputable def eigHi (a b c : ℝ) : ℝ := ((a + c) + sqrtDisc a b c) / 2

/-- `trace = eig[:, 1] + eig[:, 0]` (line 279). -/
noncomputable def eigTrace (a b c : ℝ) : ℝ := eigLo a b c + eigHi a b c

/-- `determinant = eig[:, 1] * eig[:, 0]` (line 280). -/
noncomputable def eigDet (a b c : ℝ) : ℝ := eigLo a b c * eigHi a b c

/-- `edge_respone = np.square(trace) / determinant` (line 281); the name
keeps the code's spelling. -/
noncomputable def edge_respone (a b c : ℝ) : ℝ := eigTrace a b c ^ 2 / eigDet a b c

/-- `edge_filter = np.abs(edge_respone) <= edge_threshold` (line 282); a zero
float determinant yields `inf`/`nan` and fails the comparison, hence the
nonzero-determinant conjunct. -/
def edge_filter (cedge a b c : ℝ) : Prop :=
  eigDet a b c ≠ 0 ∧ |edge_respone a b c| ≤ (cedge + 1)^2 / cedge

/-! ## Contrast threshold (lines 132, 273, 277) -/

/-- `self.c_dog = (2^(1/n_scales) - 1) / (2^(1/3) - 1) * c_dog` (line 132):
the stored contrast threshold is the constructor argument adjusted for
`n_scales`. -/
noncomputable def self_c_dog (c_dog nscales : ℝ) : ℝ :=
  ((2:ℝ) ^ ((1:ℝ)/nscales) - 1) / ((2:ℝ) ^ ((1:ℝ)/3) - 1) * c_dog

/-- `contrast_filter = np.abs(w) > self.c_dog / self.n_scales`
(lines 273, 277), in terms of the constructor arguments. -/
def contrast_filter (c_dog nscales w : ℝ) : Prop :=
  self_c_dog c_dog nscales / nscales < |w|

/-! ## Configuration (`__init__`, `_number_of_octaves`, claim C5) -/

structure SIFTConfig where
  upsampling : ℕ
  n_octaves : ℤ
  n_scales : ℕ
  sigma_min : ℝ
  sigma_in : ℝ
  c_dog : ℝ
  c_edge : ℝ
  n_bins : ℕ
  lambda_ori : ℝ
  c_max : ℝ
  lambda_descr : ℝ
  n_hist : ℕ
  n_ori : ℕ

/-- Python `int()` truncates toward zero. -/
noncomputable def pyInt (x : ℝ) : ℤ := if 0 ≤ x then ⌊x⌋ else ⌈x⌉

/-- `_number_of_octaves` (lines 152-155):
`int(min(n, log(min(shape)/12)/log(2) + upsampling))`. -/
noncomputable def number_of_octaves (n : ℤ) (upsampling : ℕ) (him wim : ℕ) : ℤ :=
  pyInt (min (n : ℝ) (Real.log (((min him wim : ℕ) : ℝ) / 12) / Real.log 2 + upsampling))

/-- The assignment `self.n_octaves = self._number_of_octaves(self.n_octaves,
image.shape)` executed by `detect` (line 491), `extract` (line 514) and
`detect_and_extract` (line 533). -/
noncomputable def detect_config (cfg : SIFTConfig) (him wim : ℕ) : SIFTConfig :=
  { cfg with n_octaves := number_of_octaves cfg.n_octaves cfg.upsampling him wim }

/-- The attribute record stored by `__init__` with all default arguments:
`sigma_min` is divided by the upsampling factor (line 130) and `c_dog` is
the adjusted threshold (line 132). -/
noncomputable def defaultConfig : SIFTConfig :=
  ⟨2, 8, 3, 1.6 / 2, 0.5, self_c_dog (0.04 / 3) 3, 10, 36, 1.5, 0.8, 6, 4, 8⟩

/-! ## Descriptor saturation, normalization and quantization (lines 472-477) -/

/-- Euclidean norm of the flattened 128-entry descriptor histogram. -/
noncomputable def histNorm (H : Fin 128 → ℝ) : ℝ := Real.sqrt (∑ k, H k ^ 2)

/-- Line 474: `np.minimum(histograms, 0.2 * norm(histograms))`. -/
noncomputable def saturated (H : Fin 128 → ℝ) : Fin 128 → ℝ :=
  fun k => min (H k) (0.2 * histNorm H)

/-- Line 476: `np.minimum(np.floor(512 * histograms / norm(histograms)), 255)`
applied after saturation, as an integer before the `uint8` cast. -/
noncomputable def descriptor (H : Fin 128 → ℝ) : Fin 128 → ℤ := fun k =>
  min ⌊512 * saturated H k / histNorm (saturated H)⌋ 255

/-! ## Orientation peaks and the angle formula (lines 299-301, 357-367) -/

/-- `_fit` (line 301): parabolic refinement from three histogram values. -/
noncomputable def fitPeak (h0 h1 h2 : ℝ) : ℝ := (h0 - h2) / (2 * (h0 + h2 - 2 * h1))

/-- Lines 365-367: `ori = (m + fit + 0.5) * 2π / n_bins`, then subtract `2π`
once when `ori > π`. -/
noncomputable def orientation_angle (nbins m : ℕ) (h0 h1 h2 : ℝ) : ℝ :=
  if Real.pi < ((m : ℝ) + fitPeak h0 h1 h2 + 0.5) * 2 * Real.pi / nbins
  then ((m : ℝ) + fitPeak h0 h1 h2 + 0.5) * 2 * Real.pi / nbins - 2 * Real.pi
  else ((m : ℝ) + fitPeak h0 h1 h2 + 0.5) * 2 * Real.pi / nbins

/-- `maximum_filter(hist, [3]) == hist` at bin `m` (lines 357-359):
`scipy.ndimage.maximum_filter` uses its default reflect boundary, so at the
two end bins the window repeats the end entry instead of wrapping. -/
def max_filter_peak (hist : Fin 36 → ℝ) (m : Fin 36) : Prop :=
  hist (if m.val = 0 then m else m - 1) ≤ hist m
  ∧ hist (if m.val = 35 then m else m + 1) ≤ hist m

/-- Lines 362-367: the parabola uses `np.arange(m-1, m+2) % len(hist)`,
i.e. the *circular* neighbors of bin `m`, unlike the reflect-mode maximum
filter. -/
noncomputable def orientation_of_peak (hist : Fin 36 → ℝ) (m : Fin 36) : ℝ :=
  orientation_angle 36 m.val (hist (m - 1)) (hist m) (hist (m + 1))

/-- Histogram making bin 35 an accepted peak whose circular neighbor bin 0
drives the parabolic offset far out of range. -/
noncomputable def histC9 : Fin 36 → ℝ := fun i =>
  if i.val = 34 then 99/100
  else if i.val = 35 then 1
  else if i.val = 0 then 202001/200000
  else 0

/-- An interior single-bin histogram (for the C9 witness). -/
noncomputable def histW : Fin 36 → ℝ := fun i => if i.val = 5 then 1 else 0

/-! # Theorems -/

/-! ## Localization helpers -/

lemma solveNegHJ_eq_some (D : (Fin 3 → ℤ) → ℚ) (p : Fin 3 → ℤ) (off : Fin 3 → ℚ)
    (hdet : det3 (negMat (hessian D p)) ≠ 0)
    (hoff : ∀ i, det3 (replaceCol (negMat (hessian D p)) i (fun j => grad D p j))
      / det3 (negMat (hessian D p)) = off i) :
    solveNegHJ D p = some off := by
  rw [solveNegHJ, if_neg hdet]
  exact congrArg some (funext hoff)

lemma solveNegHJ_eq_none (D : (Fin 3 → ℤ) → ℚ) (p : Fin 3 → ℤ)
    (hdet : det3 (negMat (hessian D p)) = 0) :
    solveNegHJ D p = none := by
  rw [solveNegHJ, if_pos hdet]

lemma solveNegHJ_D4 : solveNegHJ D4 ![1, 1, 1] = some offHalf := by
  apply solveNegHJ_eq_some
  · simp +decide only [det3, negMat, hessian, shiftp, D4, Function.update,
      Matrix.cons_val_zero, Matrix.cons_val_one, Matrix.head_cons]
    norm_num
  · intro i
    fin_cases i <;>
      · simp +decide only [det3, negMat, replaceCol, hessian, grad, shiftp, D4, offHalf,
          Function.update, Matrix.cons_val_zero, Matrix.cons_val_one, Matrix.head_cons]
        norm_num

lemma refineIter_D4 : refineIter D4 dim3 4 [![1, 1, 1]] = some [(![1, 1, 1], offHalf)] := by
  rw [refineIter]
  rw [if_pos (by simp [inrange, dim3])]
  simp only [solveBatch, solveNegHJ_D4]
  rw [if_neg]
  rintro ⟨ko, hko, i, h⟩
  simp only [List.mem_cons, List.not_mem_nil, or_false] at hko
  subst hko
  rcases h with ⟨h1, h2⟩ | ⟨h1, h2⟩ <;>
    · simp only [offHalf] at h1
      fin_cases i <;> norm_num at h1

lemma solveNegHJ_D4b : solveNegHJ D4b ![1, 1, 1] = some (fun _ => 0) := by
  apply solveNegHJ_eq_some
  · simp +decide only [det3, negMat, hessian, shiftp, D4b, Function.update,
      Matrix.cons_val_zero, Matrix.cons_val_one, Matrix.head_cons]
    norm_num
  · intro i
    fin_cases i <;>
      · simp +decide only [det3, negMat, replaceCol, hessian, grad, shiftp, D4b,
          Function.update, Matrix.cons_val_zero, Matrix.cons_val_one, Matrix.head_cons]
        norm_num

lemma refineIter_D4b : refineIter D4b dim3 4 [![1, 1, 1]] = some [(![1, 1, 1], fun _ => 0)] := by
  rw [refineIter]
  rw [if_pos (by simp [inrange, dim3])]
  simp only [solveBatch, solveNegHJ_D4b]
  rw [if_neg]
  rintro ⟨ko, hko, i, h⟩
  simp only [List.mem_cons, List.not_mem_nil, or_false] at hko
  subst hko
  rcases h with ⟨h1, h2⟩ | ⟨h1, h2⟩ <;> norm_num at h1

/-- C4 counterexample: a candidate whose refinement terminates with offset
exactly `(1/2, 0, 0)` — every component satisfies `|off| ≤ 0.5`, so by the
claim it should succeed localization, yet the localization output is empty
because line 263 requires the strict `|off| < 0.5`. -/
theorem C4_counterexample :
    refineIter D4 dim3 4 [![1, 1, 1]] = some [(![1, 1, 1], offHalf)]
    ∧ (∀ i, |offHalf i| ≤ 1/2)
    ∧ localizeCandidates D4 dim3 [![1, 1, 1]] = some [] := by
  refine ⟨refineIter_D4, ?_, ?_⟩
  · intro i
    fin_cases i <;> norm_num [offHalf, abs_le]
  · rw [localizeCandidates, refineIter_D4, Option.map_some']
    congr 1
    rw [List.filter_cons_of_neg, List.filter_nil]
    simp only [decide_eq_true_eq, finishedOff, not_forall]
    exact ⟨0, by norm_num [offHalf, abs_lt]⟩

/-- C4 (amended): a refinement candidate succeeds localization exactly when
every component of its terminal offset satisfies the strict bound
`|off| < 0.5`; offsets with a component equal to 0.5 are discarded. -/
theorem C4_localization_strict (D : (Fin 3 → ℤ) → ℚ) (dim : Fin 3 → ℤ)
    (keys : List (Fin 3 → ℤ)) (l : List ((Fin 3 → ℤ) × (Fin 3 → ℚ)))
    (h : refineIter D dim 4 keys = some l) (ko : (Fin 3 → ℤ) × (Fin 3 → ℚ))
    (lf : List ((Fin 3 → ℤ) × (Fin 3 → ℚ)))
    (hf : localizeCandidates D dim keys = some lf) :
    ko ∈ lf ↔ ko ∈ l ∧ ∀ i, |ko.2 i| < 1/2 := by
  rw [localizeCandidates, h, Option.map_some', Option.some.injEq] at hf
  subst hf
  rw [List.mem_filter, decide_eq_true_eq]
  exact Iff.rfl

lemma localize_D4b :
    localizeCandidates D4b dim3 [![1, 1, 1]] =
      some [((![1, 1, 1] : Fin 3 → ℤ), fun _ : Fin 3 => (0:ℚ))] := by
  rw [localizeCandidates, refineIter_D4b, Option.map_some']
  congr 1
  rw [List.filter_cons_of_pos, List.filter_nil]
  simp only [decide_eq_true_eq, finishedOff]
  intro i
  norm_num

/-- Witness for `C4_localization_strict` at a concrete successful candidate. -/
theorem C4_witness :
    ((![1, 1, 1] : Fin 3 → ℤ), fun _ : Fin 3 => (0:ℚ)) ∈
        [((![1, 1, 1] : Fin 3 → ℤ), fun _ : Fin 3 => (0:ℚ))] ↔
      ((![1, 1, 1] : Fin 3 → ℤ), fun _ : Fin 3 => (0:ℚ)) ∈
        [((![1, 1, 1] : Fin 3 → ℤ), fun _ : Fin 3 => (0:ℚ))]
      ∧ ∀ i, |(fun _ : Fin 3 => (0:ℚ)) i| < 1/2 :=
  C4_localization_strict D4b dim3 [![1, 1, 1]] [(![1, 1, 1], fun _ => 0)] refineIter_D4b
    (![1, 1, 1], fun _ => 0) [(![1, 1, 1], fun _ => 0)] localize_D4b

lemma solveNegHJ_D6_c1 : solveNegHJ D6 ![1, 1, 1] = some (fun _ => 0) := by
  apply solveNegHJ_eq_some
  · simp +decide only [det3, negMat, hessian, shiftp, D6, Function.update,
      Matrix.cons_val_zero, Matrix.cons_val_one, Matrix.head_cons]
    norm_num
  · intro i
    fin_cases i <;>
      · simp +decide only [det3, negMat, replaceCol, hessian, grad, shiftp, D6,
          Function.update, Matrix.cons_val_zero, Matrix.cons_val_one, Matrix.head_cons]
        norm_num

lemma solveNegHJ_D6_c2 : solveNegHJ D6 ![1, 1, 3] = none := by
  apply solveNegHJ_eq_none
  simp +decide only [det3, negMat, hessian, shiftp, D6, Function.update,
    Matrix.cons_val_zero, Matrix.cons_val_one, Matrix.head_cons]
  norm_num

lemma keep_D6_c1 :
    contrastEdgeKeep D6 (1/100) (121/10) (![1, 1, 1], fun _ : Fin 3 => (0:ℚ)) = true := by
  rw [contrastEdgeKeep, Bool.and_eq_true, Bool.and_eq_true, decide_eq_true_eq,
    decide_eq_true_eq, decide_eq_true_eq]
  refine ⟨⟨?_, ?_⟩, ?_⟩ <;>
    · simp +decide only [interpW, tr2, det2, dot3, hessian, grad, shiftp, D6,
        Function.update, Matrix.cons_val_zero, Matrix.cons_val_one, Matrix.head_cons]
      norm_num

/-- C6: a singular Hessian of one candidate does not merely drop that
candidate — the batched linear solve fails and the whole octave returns
nothing, losing the perfectly good candidate `(1,1,1)` that survives every
filter when processed alone. -/
theorem C6_singular_hessian_global_failure :
    evaluateCandidates D6 dim35 (1/100) (121/10) [![1, 1, 1], ![1, 1, 3]] = none
    ∧ evaluateCandidates D6 dim35 (1/100) (121/10) [![1, 1, 1]] =
        some [(![1, 1, 1], fun _ => 0)] := by
  constructor
  · rw [evaluateCandidates, localizeCandidates, refineIter]
    rw [if_pos (by simp +decide [inrange, dim35])]
    simp only [solveBatch, solveNegHJ_D6_c1, solveNegHJ_D6_c2]
    rfl
  · rw [evaluateCandidates, localizeCandidates, refineIter]
    rw [if_pos (by simp +decide [inrange, dim35])]
    simp only [solveBatch, solveNegHJ_D6_c1]
    rw [if_neg]
    · rw [Option.map_some', Option.map_some']
      congr 1
      rw [List.filter_cons_of_pos (by rw [decide_eq_true_eq]; intro i; norm_num),
        List.filter_nil, List.filter_cons_of_pos keep_D6_c1, List.filter_nil]
    · rintro ⟨ko, hko, i, h⟩
      simp only [List.mem_cons, List.not_mem_nil, or_false] at hko
      subst hko
      rcases h with ⟨h1, h2⟩ | ⟨h1, h2⟩ <;> norm_num at h1

/-! ## Orientation aggregation: C1 and C10 -/

lemma keypoint_indices_map_getD {α : Type} (f : OriKp → α) :
    ∀ (ks : List OriKp) (i : ℕ) (big : List OriKp),
      (∀ n, n < ks.length → big.getD (i + n) default = ks.getD n default) →
      (keypoint_indices ks i).map (fun j => f (big.getD j default)) =
        ks.flatMap fun k => if k.valid then k.angles.tail.map (fun _ => f k) else [] := by
  intro ks
  induction ks with
  | nil => intro i big h; simp [keypoint_indices]
  | cons k ks ih =>
    intro i big h
    have hk : big.getD i default = k := by
      have := h 0 (by simp)
      simpa using this
    rw [keypoint_indices, List.map_append, List.flatMap_cons]
    congr 1
    · by_cases hv : k.valid
      · simp only [if_pos hv, List.map_map]
        apply List.map_congr_left
        intro a ha
        show f (big.getD i default) = f k
        exact congrArg f hk
      · simp [if_neg hv]
    · apply ih (i + 1) big
      intro n hn
      have := h (n + 1) (by simpa using Nat.succ_lt_succ hn)
      rw [show i + 1 + n = i + (n + 1) by omega]
      simpa using this

lemma keypoint_indices_length :
    ∀ (ks : List OriKp) (i : ℕ),
      (keypoint_indices ks i).length = (keypoint_angles ks).length := by
  intro ks
  induction ks with
  | nil => intro i; simp [keypoint_indices, keypoint_angles]
  | cons k ks ih =>
    intro i
    rw [keypoint_indices, keypoint_angles, List.length_append, List.flatMap_cons,
      List.length_append, ih i.succ]
    rw [keypoint_angles]
    by_cases hv : k.valid <;> simp [hv]

lemma keypoint_octave_length (ks : List OriKp) :
    (keypoint_octave ks).length = (keypoint_angles ks).length := by
  induction ks with
  | nil => simp [keypoint_octave, keypoint_angles]
  | cons k ks ih =>
    rw [keypoint_octave, keypoint_angles, List.flatMap_cons, List.flatMap_cons,
      List.length_append, List.length_append]
    rw [keypoint_octave, keypoint_angles] at ih
    rw [ih]
    by_cases hv : k.valid <;> simp [hv]

/-- C1: `positions`, `scales`, `sigmas`, `orientations`, `octaves` and the
descriptor row count all share the expanded length N, but `self.keypoints`
is built from the pre-orientation array: with a single invalid keypoint it
has 1 row while every other output has length 0. -/
theorem C1_keypoints_length_mismatch :
    (∀ ks : List OriKp,
        (self_positions ks).length = (self_scales ks).length
      ∧ (self_positions ks).length = (self_sigmas ks).length
      ∧ (self_positions ks).length = (self_orientations ks).length
      ∧ (self_positions ks).length = (self_octaves ks).length
      ∧ (self_positions ks).length = descriptors_rows ks)
    ∧ (detect_keypoints [kInvalid]).length = 1
    ∧ (self_positions [kInvalid]).length = 0 := by
  refine ⟨fun ks => ?_, by simp [detect_keypoints], ?_⟩
  · refine ⟨?_, ?_, ?_, ?_, ?_⟩ <;>
      simp [self_positions, self_scales, self_sigmas, self_orientations, self_octaves,
        descriptors_rows, keypoint_indices_length, keypoint_octave_length]
  · simp [self_positions, validKps, keypoint_indices, kInvalid]

/-- C10: the output arrays consist of all valid keypoints in their original
order, the first accepted peak giving each its orientation, followed by one
clone per additional peak; each clone keeps its original's position, scale,
sigma and octave, and all clones are grouped at the tail. -/
theorem C10_clones_at_tail (ks : List OriKp) :
    self_positions ks = (validKps ks).map (·.pos)
      ++ (ks.flatMap fun k => if k.valid then k.angles.tail.map (fun _ => k.pos) else [])
    ∧ self_scales ks = (validKps ks).map (·.scale)
      ++ (ks.flatMap fun k => if k.valid then k.angles.tail.map (fun _ => k.scale) else [])
    ∧ self_sigmas ks = (validKps ks).map (·.sigma)
      ++ (ks.flatMap fun k => if k.valid then k.angles.tail.map (fun _ => k.sigma) else [])
    ∧ self_orientations ks = (validKps ks).map (fun k => k.angles.headD 0)
      ++ (ks.flatMap fun k => if k.valid then k.angles.tail else [])
    ∧ self_octaves ks = (validKps ks).map (·.octave)
      ++ (ks.flatMap fun k => if k.valid then k.angles.tail.map (fun _ => k.octave) else []) := by
  have hbase : ∀ n, n < ks.length → ks.getD (0 + n) default = ks.getD n default := by
    intro n hn; rw [Nat.zero_add]
  refine ⟨?_, ?_, ?_, ?_, ?_⟩
  · rw [self_positions, keypoint_indices_map_getD (·.pos) ks 0 ks hbase]
  · rw [self_scales, keypoint_indices_map_getD (·.scale) ks 0 ks hbase]
  · rw [self_sigmas, keypoint_indices_map_getD (·.sigma) ks 0 ks hbase]
  · rfl
  · rfl

/-! ## Histogram smoothing: C8 -/

lemma padded_eq (h : ℤ → ℚ) (i : ℤ) (h0 : 0 ≤ i) (h1 : i ≤ 41) :
    padded h i = h ((i - 3) % 36) := by
  unfold padded
  split_ifs with c1 c2 c3
  · congr 1; omega
  · congr 1; omega
  · congr 1; omega
  · omega

/-- After `t` smoothing passes, the padded array agrees with the circularly
convolved histogram on the positions the zero padding has not yet reached:
`t ≤ i ≤ 41 - t`. -/
lemma smooth_agree_aux (h : ℤ → ℚ) :
    ∀ (t : ℕ) (i : ℤ), (t : ℤ) ≤ i → i ≤ 41 - t →
      (convSame 42)^[t] (padded h) i = (circConv)^[t] h ((i - 3) % 36) := by
  intro t
  induction t with
  | zero =>
    intro i hl hu
    simp only [Function.iterate_zero_apply]
    exact padded_eq h i (by omega) (by omega)
  | succ t ih =>
    intro i hl hu
    rw [Function.iterate_succ_apply', Function.iterate_succ_apply']
    rw [convSame]
    rw [if_pos (by constructor <;> omega)]
    rw [circConv]
    have e1 : ((i - 3) % 36 - 1) % 36 = (i - 1 - 3) % 36 := by omega
    have e2 : ((i - 3) % 36) % 36 = (i - 3) % 36 := by omega
    have e3 : ((i - 3) % 36 + 1) % 36 = (i + 1 - 3) % 36 := by omega
    rw [e1, e2, e3]
    rw [ih (i - 1) (by omega) (by omega), ih i (by omega) (by omega),
      ih (i + 1) (by omega) (by omega)]

/-- C8 counterexample: at bin 0 the code's smoothing gives 0, six exact
circular convolutions give 1/729 — the 3-element padding is too short for
six passes, so the outer three bins at each end differ. -/
theorem C8_counterexample :
    codeSmooth hC8 0 = 0 ∧ circSmooth hC8 0 = 1/729
    ∧ codeSmooth hC8 0 ≠ circSmooth hC8 0 := by
  have h1 : codeSmooth hC8 0 = 0 := by
    show convSame 42 ((convSame 42) ((convSame 42) ((convSame 42) ((convSame 42)
      ((convSame 42) (padded hC8)))))) 3 = 0
    simp +decide only [convSame, padded, hC8]
    norm_num
  have h2 : circSmooth hC8 0 = 1/729 := by
    show circConv (circConv (circConv (circConv (circConv (circConv hC8))))) 0 = 1/729
    simp +decide only [circConv, hC8]
    norm_num
  exact ⟨h1, h2, by rw [h1, h2]; norm_num⟩

/-- C8 (amended): the code's smoothing equals six exact circular
convolutions on the interior bins `3 ≤ j ≤ 32`; it may differ (and does, by
`C8_counterexample`) on the three outermost bins at each end. -/
theorem C8_smoothing (h : ℤ → ℚ) (j : ℤ) (h3 : 3 ≤ j) (h32 : j ≤ 32) :
    codeSmooth h j = circSmooth h j := by
  rw [codeSmooth, circSmooth]
  rw [smooth_agree_aux h 6 (j + 3) (by omega) (by omega)]
  have e : (j + 3 - 3) % 36 = j := by omega
  rw [e]

/-- Witness for `C8_smoothing` at bin 5 of the concrete histogram `hC8`. -/
theorem C8_witness :
    (3:ℤ) ≤ 5 ∧ (5:ℤ) ≤ 32 ∧ codeSmooth hC8 5 = circSmooth hC8 5 :=
  ⟨by norm_num, by norm_num, C8_smoothing hC8 5 (by norm_num) (by norm_num)⟩

/-! ## Edge filter: C2 -/

lemma eigTrace_eq (a b c : ℝ) : eigTrace a b c = a + c := by
  unfold eigTrace eigLo eigHi; ring

lemma eigDet_eq (a b c : ℝ) : eigDet a b c = a * c - b^2 := by
  have hs : sqrtDisc a b c ^ 2 = (a - c)^2 + 4*b^2 :=
    Real.sq_sqrt (by positivity)
  unfold eigDet eigLo eigHi
  have expand : ((a + c) - sqrtDisc a b c) / 2 * (((a + c) + sqrtDisc a b c) / 2)
      = ((a + c)^2 - sqrtDisc a b c ^ 2) / 4 := by ring
  rw [expand, hs]; ring

/-- C2 counterexample: the saddle Hessian `[[1,0],[0,-1]]` has negative
determinant, so the claim says it must be rejected; the code's filter keeps
it, because its edge response is `0²/(-1) = 0` and `|0| ≤ 12.1`. -/
theorem C2_counterexample :
    edge_filter 10 1 0 (-1) ∧ eigDet 1 0 (-1) < 0 := by
  have hdet : eigDet 1 0 (-1) = -1 := by rw [eigDet_eq]; norm_num
  have htr : eigTrace 1 0 (-1) = 0 := by rw [eigTrace_eq]; norm_num
  refine ⟨⟨by rw [hdet]; norm_num, ?_⟩, by rw [hdet]; norm_num⟩
  unfold edge_respone
  rw [hdet, htr]
  norm_num

/-- C2 (amended): every kept candidate satisfies
`|tr(H_xy)² / det(H_xy)| ≤ (c_edge+1)²/c_edge` with a nonzero determinant —
the sign of the determinant is not checked, so candidates with
`det(H_xy) < 0` can be kept (see `C2_counterexample`). -/
theorem C2_edge_filter (cedge a b c : ℝ) (hkeep : edge_filter cedge a b c) :
    a * c - b^2 ≠ 0 ∧ |(a + c)^2 / (a * c - b^2)| ≤ (cedge + 1)^2 / cedge := by
  obtain ⟨hdz, hle⟩ := hkeep
  rw [eigDet_eq] at hdz
  refine ⟨hdz, ?_⟩
  unfold edge_respone at hle
  rw [eigDet_eq, eigTrace_eq] at hle
  exact hle

/-- Witness for `C2_edge_filter` at the kept corner Hessian `[[-2,0],[0,-2]]`. -/
theorem C2_witness :
    (-2 : ℝ) * (-2) - 0^2 ≠ 0
    ∧ |((-2 : ℝ) + (-2))^2 / ((-2) * (-2) - 0^2)| ≤ (10 + 1)^2 / 10 :=
  C2_edge_filter 10 (-2) 0 (-2)
    ⟨by rw [eigDet_eq]; norm_num,
     by unfold edge_respone; rw [eigDet_eq, eigTrace_eq]; norm_num⟩

/-! ## Contrast filter: C3 -/

lemma one_lt_rpow_third : (1:ℝ) < (2:ℝ) ^ ((1:ℝ)/3) := by
  have := Real.rpow_lt_rpow_of_exponent_lt (x := 2) (by norm_num)
    (show (0:ℝ) < 1/3 by norm_num)
  rwa [Real.rpow_zero] at this

/-- C3 counterexample: with base threshold `c_dog = 1` and `n_scales = 6`,
the response `w = 1/6` passes the code's filter (the stored threshold is the
adjusted `(2^(1/6)-1)/(2^(1/3)-1) < 1` times the base), yet `|w| > c_dog /
n_scales` fails. -/
theorem C3_counterexample :
    contrast_filter 1 6 (1/6) ∧ ¬ ((1:ℝ)/6 < |(1/6 : ℝ)|) := by
  have hlt : (2:ℝ) ^ ((1:ℝ)/6) < (2:ℝ) ^ ((1:ℝ)/3) :=
    Real.rpow_lt_rpow_of_exponent_lt (by norm_num) (by norm_num)
  have hden : (0:ℝ) < (2:ℝ) ^ ((1:ℝ)/3) - 1 := by linarith [one_lt_rpow_third]
  have hfac : self_c_dog 1 6 < 1 := by
    unfold self_c_dog
    rw [mul_one, div_lt_one hden]
    linarith
  constructor
  · unfold contrast_filter
    rw [abs_of_pos (by norm_num : (0:ℝ) < 1/6)]
    linarith
  · rw [abs_of_pos (by norm_num : (0:ℝ) < 1/6)]
    norm_num

/-- C3 (amended): the kept keypoints satisfy `|w| > self_c_dog / n_scales`
where `self_c_dog` is the adjusted threshold of line 132; for the default
`n_scales = 3` the adjustment factor is 1 and the claimed bound
`|w| > c_dog / n_scales` does hold. -/
theorem C3_contrast_default (c_dog w : ℝ) (hk : contrast_filter c_dog 3 w) :
    c_dog / 3 < |w| := by
  have hne : ((2:ℝ) ^ ((1:ℝ)/3) - 1) ≠ 0 := ne_of_gt (by linarith [one_lt_rpow_third])
  have hself : self_c_dog c_dog 3 = c_dog := by
    unfold self_c_dog
    rw [div_self hne, one_mul]
  unfold contrast_filter at hk
  rwa [hself] at hk

/-- Witness for `C3_contrast_default`. -/
theorem C3_witness : (0:ℝ) / 3 < |(1:ℝ)| :=
  C3_contrast_default 0 1
    (by unfold contrast_filter self_c_dog; norm_num)

/-! ## Configuration immutability: C5 -/

/-- C5 counterexample: on a 48×48 image, `detect` (line 491) overwrites
`self.n_octaves` with `min(8, log2(48/12) + 2) = 4`, so the configuration
value chosen at construction does not survive the call. -/
theorem C5_counterexample :
    (detect_config defaultConfig 48 48).n_octaves = 4
    ∧ defaultConfig.n_octaves = 8 := by
  constructor
  · show number_of_octaves 8 2 48 48 = 4
    unfold number_of_octaves
    have h48 : ((min 48 48 : ℕ) : ℝ) / 12 = 4 := by norm_num
    rw [h48]
    have hlog : Real.log 4 / Real.log 2 = 2 := by
      rw [show (4:ℝ) = 2^2 by norm_num, Real.log_pow]
      have h2 : Real.log 2 ≠ 0 := ne_of_gt (Real.log_pos one_lt_two)
      field_simp
    rw [hlog]
    have hmin : min (((8:ℤ)):ℝ) ((2:ℝ) + ((2:ℕ):ℝ)) = 4 := by push_cast; norm_num
    rw [hmin]
    unfold pyInt
    rw [if_pos (by norm_num)]
    norm_num
  · rfl

/-- C5 (amended): `detect`/`extract`/`detect_and_extract` leave every
configuration attribute unchanged except `n_octaves`, which they overwrite
with `_number_of_octaves` of the image shape. -/
theorem C5_config_frame (cfg : SIFTConfig) (him wim : ℕ) :
    (detect_config cfg him wim).upsampling = cfg.upsampling
    ∧ (detect_config cfg him wim).n_scales = cfg.n_scales
    ∧ (detect_config cfg him wim).sigma_min = cfg.sigma_min
    ∧ (detect_config cfg him wim).sigma_in = cfg.sigma_in
    ∧ (detect_config cfg him wim).c_dog = cfg.c_dog
    ∧ (detect_config cfg him wim).c_edge = cfg.c_edge
    ∧ (detect_config cfg him wim).n_bins = cfg.n_bins
    ∧ (detect_config cfg him wim).lambda_ori = cfg.lambda_ori
    ∧ (detect_config cfg him wim).c_max = cfg.c_max
    ∧ (detect_config cfg him wim).lambda_descr = cfg.lambda_descr
    ∧ (detect_config cfg him wim).n_hist = cfg.n_hist
    ∧ (detect_config cfg him wim).n_ori = cfg.n_ori
    ∧ (detect_config cfg him wim).n_octaves =
        number_of_octaves cfg.n_octaves cfg.upsampling him wim :=
  ⟨rfl, rfl, rfl, rfl, rfl, rfl, rfl, rfl, rfl, rfl, rfl, rfl, rfl⟩

/-! ## Descriptor: C7 -/

lemma histNorm_nonneg (H : Fin 128 → ℝ) : 0 ≤ histNorm H := Real.sqrt_nonneg _

lemma histNorm_pos (H : Fin 128 → ℝ) (hnn : ∀ k, 0 ≤ H k) (hne : ∃ k, H k ≠ 0) :
    0 < histNorm H := by
  obtain ⟨k0, hk0⟩ := hne
  apply Real.sqrt_pos.mpr
  exact Finset.sum_pos' (fun i _ => sq_nonneg (H i))
    ⟨k0, Finset.mem_univ _, pow_two_pos_of_ne_zero hk0⟩

lemma histNorm_mono (F G : Fin 128 → ℝ) (hnn : ∀ k, 0 ≤ F k) (hle : ∀ k, F k ≤ G k) :
    histNorm F ≤ histNorm G :=
  Real.sqrt_le_sqrt (Finset.sum_le_sum fun k _ => pow_le_pow_left₀ (hnn k) (hle k) 2)

lemma histNorm_le_sqrt_mul (H : Fin 128 → ℝ) (M : ℝ) (hM : 0 ≤ M)
    (hle : ∀ k, H k ≤ M) (hnn : ∀ k, 0 ≤ H k) :
    histNorm H ≤ Real.sqrt 128 * M := by
  have h1 : histNorm H ≤ Real.sqrt (∑ _k : Fin 128, M ^ 2) :=
    Real.sqrt_le_sqrt (Finset.sum_le_sum fun k _ => pow_le_pow_left₀ (hnn k) (hle k) 2)
  have h2 : (∑ _k : Fin 128, M ^ 2) = 128 * M ^ 2 := by
    rw [Finset.sum_const, Finset.card_univ, Fintype.card_fin, nsmul_eq_mul]
    norm_num
  rw [h2] at h1
  calc histNorm H ≤ Real.sqrt (128 * M ^ 2) := h1
  _ = Real.sqrt 128 * Real.sqrt (M ^ 2) := Real.sqrt_mul (by norm_num) _
  _ = Real.sqrt 128 * M := by rw [Real.sqrt_sq hM]

/-- C7 (amended): for a nonnegative histogram that is not identically zero,
the recomputed norm after saturation is nonzero, every quantized byte lies
in `[0, 255]`, and the descriptor has at least one positive byte (hence
positive norm).  For the identically zero histogram the quantization divisor
is zero (`C7_counterexample`). -/
theorem C7_descriptor (H : Fin 128 → ℝ) (hnn : ∀ k, 0 ≤ H k) (hne : ∃ k, H k ≠ 0) :
    histNorm (saturated H) ≠ 0
    ∧ (∀ k, 0 ≤ descriptor H k ∧ descriptor H k ≤ 255)
    ∧ (∃ k, 0 < descriptor H k) := by
  have hL : 0 < histNorm H := histNorm_pos H hnn hne
  have hsnn : ∀ k, 0 ≤ saturated H k := fun k =>
    le_min (hnn k) (by positivity)
  have hsne : ∃ k, saturated H k ≠ 0 := by
    obtain ⟨k0, hk0⟩ := hne
    have hk0p : 0 < H k0 := lt_of_le_of_ne (hnn k0) (Ne.symm hk0)
    exact ⟨k0, ne_of_gt (lt_min hk0p (by positivity))⟩
  have hL' : 0 < histNorm (saturated H) := histNorm_pos _ hsnn hsne
  have hL'L : histNorm (saturated H) ≤ histNorm H :=
    histNorm_mono _ _ hsnn (fun k => min_le_left _ _)
  refine ⟨ne_of_gt hL', fun k => ⟨?_, min_le_right _ _⟩, ?_⟩
  · apply le_min _ (by norm_num)
    apply Int.floor_nonneg.mpr
    exact div_nonneg (mul_nonneg (by norm_num) (hsnn k)) hL'.le
  · obtain ⟨kM, -, hmax⟩ := Finset.exists_max_image Finset.univ H ⟨0, Finset.mem_univ 0⟩
    have hmax' : ∀ a, H a ≤ H kM := fun a => hmax a (Finset.mem_univ a)
    have hkey : histNorm (saturated H) ≤ 512 * saturated H kM := by
      rcases le_or_lt (H kM) (0.2 * histNorm H) with hcase | hcase
      · have hsat : saturated H kM = H kM := min_eq_left hcase
        have hLle : histNorm H ≤ Real.sqrt 128 * H kM :=
          histNorm_le_sqrt_mul H (H kM) (hnn kM) hmax' hnn
        have hs128 : Real.sqrt 128 ≤ 512 := by
          rw [show (512:ℝ) = Real.sqrt (512 ^ 2) from (Real.sqrt_sq (by norm_num)).symm]
          exact Real.sqrt_le_sqrt (by norm_num)
        have h3 : Real.sqrt 128 * H kM ≤ 512 * H kM :=
          mul_le_mul_of_nonneg_right hs128 (hnn kM)
        rw [hsat]
        linarith
      · have hsat : saturated H kM = 0.2 * histNorm H := min_eq_right hcase.le
        rw [hsat]
        nlinarith
    have hx1 : (1:ℝ) ≤ 512 * saturated H kM / histNorm (saturated H) :=
      (one_le_div hL').mpr hkey
    refine ⟨kM, lt_min ?_ (by norm_num)⟩
    have := Int.le_floor.mpr (by exact_mod_cast hx1 :
      ((1:ℤ):ℝ) ≤ 512 * saturated H kM / histNorm (saturated H))
    omega

/-- C7 counterexample: the identically zero histogram reaches the descriptor
stage unchanged and its recomputed norm — the quantization divisor of line
476 — is zero, contradicting the claim that the divisor is always nonzero. -/
theorem C7_counterexample : histNorm (saturated (fun _ => 0)) = 0 := by
  have h0 : histNorm (fun _ : Fin 128 => (0:ℝ)) = 0 := by
    unfold histNorm
    simp
  have hs : saturated (fun _ : Fin 128 => (0:ℝ)) = fun _ => 0 := by
    funext k
    unfold saturated
    rw [h0]
    norm_num
  rw [hs, h0]

/-- Witness for `C7_descriptor` at the constant histogram 1. -/
theorem C7_witness :
    histNorm (saturated (fun _ => 1)) ≠ 0
    ∧ (∀ k, 0 ≤ descriptor (fun _ => 1) k ∧ descriptor (fun _ => 1) k ≤ 255)
    ∧ (∃ k, 0 < descriptor (fun _ => 1) k) :=
  C7_descriptor (fun _ => 1) (fun _ => zero_le_one) ⟨0, one_ne_zero⟩

/-! ## Orientation angle range: C9 -/

lemma abs_fitPeak_le (h0 h1 h2 : ℝ) (ha : h0 ≤ h1) (hb : h2 ≤ h1) :
    |fitPeak h0 h1 h2| ≤ 1/2 := by
  unfold fitPeak
  rcases eq_or_lt_of_le (show h0 + h2 - 2*h1 ≤ 0 by linarith) with hd | hd
  · rw [hd, mul_zero, div_zero]
    norm_num
  · rw [abs_div]
    have hnum : |h0 - h2| ≤ -(h0 + h2 - 2*h1) := abs_le.mpr ⟨by linarith, by linarith⟩
    have hden : |2*(h0 + h2 - 2*h1)| = 2 * (-(h0 + h2 - 2*h1)) := by
      rw [abs_of_neg (by linarith)]; ring
    rw [hden, div_le_iff₀ (by linarith)]
    linarith

lemma orientation_angle_mem (nbins m : ℕ) (h0 h1 h2 : ℝ) (hm : m < nbins)
    (ha : h0 ≤ h1) (hb : h2 ≤ h1) :
    orientation_angle nbins m h0 h1 h2 ∈ Set.Ioc (-Real.pi) Real.pi := by
  have hfit := abs_fitPeak_le h0 h1 h2 ha hb
  obtain ⟨hfl, hfu⟩ := abs_le.mp hfit
  have hpi := Real.pi_pos
  have hn1 : (1:ℝ) ≤ (nbins:ℝ) := by
    have : (1:ℕ) ≤ nbins := Nat.one_le_iff_ne_zero.mpr (by omega)
    exact_mod_cast this
  have hmub : (m:ℝ) + 1 ≤ (nbins:ℝ) := by exact_mod_cast hm
  have hm0 : (0:ℝ) ≤ (m:ℝ) := Nat.cast_nonneg m
  set f := fitPeak h0 h1 h2 with hf
  set raw := ((m : ℝ) + f + 0.5) * 2 * Real.pi / nbins with hraw
  have hfac0 : 0 ≤ (m:ℝ) + f + 0.5 := by norm_num; linarith
  have hfacn : (m:ℝ) + f + 0.5 ≤ (nbins:ℝ) := by norm_num; linarith
  have hb0 : 0 ≤ raw := by
    rw [hraw]
    apply div_nonneg _ (by linarith)
    have := mul_nonneg hfac0 (by norm_num : (0:ℝ) ≤ 2)
    exact mul_nonneg this hpi.le
  have hb2 : raw ≤ 2 * Real.pi := by
    rw [hraw, div_le_iff₀ (by linarith)]
    nlinarith
  rw [orientation_angle]
  rw [← hf, ← hraw]
  split_ifs with hgt
  · exact ⟨by linarith, by linarith⟩
  · exact ⟨by linarith, by linarith⟩

/-- C9 (amended): for a peak at an interior bin `0 < m < 35` — where the
reflect-mode maximum filter really does bound both parabola neighbors — the
refined angle always lands in `(-π, π]`.  At the two boundary bins the
circular neighbor used by the parabola is not bounded by the peak condition
and the angle can leave the interval (`C9_counterexample`). -/
theorem C9_interior_orientation_range (hist : Fin 36 → ℝ) (m : Fin 36)
    (h1 : 0 < m.val) (h2 : m.val < 35) (hpk : max_filter_peak hist m) :
    orientation_of_peak hist m ∈ Set.Ioc (-Real.pi) Real.pi := by
  unfold max_filter_peak at hpk
  rw [if_neg (by omega), if_neg (by omega)] at hpk
  exact orientation_angle_mem 36 m.val _ _ _ (by omega) hpk.1 hpk.2

/-- C9 counterexample: bin 35 of `histC9` is an accepted reference peak
(`maximum_filter` condition and the 80%-of-maximum condition both hold),
yet its parabolically refined angle is far below `-π`: the parabola reads
the circular neighbor bin 0, which the reflect-mode maximum filter never
inspected, and the denominator `h₋ + h₊ - 2h₀` is a tiny positive number. -/
theorem C9_counterexample :
    max_filter_peak histC9 35
    ∧ (∀ j, (8/10) * histC9 j ≤ histC9 35)
    ∧ orientation_of_peak histC9 35 < -Real.pi := by
  have e34 : histC9 ((35:Fin 36) - 1) = 99/100 := by
    simp +decide only [histC9]
    norm_num
  have e35 : histC9 35 = 1 := by
    simp +decide only [histC9]
    norm_num
  have e0 : histC9 ((35:Fin 36) + 1) = 202001/200000 := by
    simp +decide only [histC9]
    norm_num
  refine ⟨?_, ?_, ?_⟩
  · unfold max_filter_peak
    constructor
    · rw [if_neg (by decide), e34, e35]
      norm_num
    · rw [if_pos (by decide)]
  · intro j
    fin_cases j <;>
      · simp +decide only [histC9]
        norm_num
  · unfold orientation_of_peak
    rw [e34, e35, e0]
    have hfit : fitPeak (99/100) 1 (202001/200000) = -4001/2 := by
      unfold fitPeak
      norm_num
    have hpi := Real.pi_pos
    rw [orientation_angle, hfit]
    have hraw : (((35:Fin 36).val : ℝ) + (-4001/2) + 0.5) = -1965 := by
      have hv : ((35 : Fin 36).val) = 35 := rfl
      rw [hv]
      norm_num
    rw [hraw]
    rw [if_neg (by nlinarith)]
    nlinarith

/-- Witness for `C9_interior_orientation_range` at a single-bin histogram. -/
theorem C9_witness : orientation_of_peak histW 5 ∈ Set.Ioc (-Real.pi) Real.pi := by
  refine C9_interior_orientation_range histW 5 (by decide) (by decide) ?_
  unfold max_filter_peak
  constructor
  · rw [if_neg (by decide)]
    simp +decide only [histW]
    norm_num
  · rw [if_neg (by decide)]
    simp +decide only [histW]
    norm_num

end SIFT
